import Mathlib

/-!
Verification development for `fate_test/_parser.py` (FATE test-suite scheduler).

The Python module is shallowly embedded: JSON-like configuration payloads
become the inductive `JVal` (Python dicts are insertion-ordered sequences of
key/value pairs, encoded with `dnil`/`dcons`), mutable objects become explicit
state passing, and code paths that raise Python exceptions return
`Except PyErr`.  Jobs are shared mutable objects in Python (a `Job` appears in
`Testsuite.jobs`, in `_dependency` lists and in the `_ready_jobs` deque); the
embedding therefore keeps a single job store `Testsuite.jobs : List Job` and
lets the dependency index and the ready queue hold indices into it.
-/

namespace FateParser

/-- A JSON-like Python value: `null`, booleans, strings, naturals,
insertion-ordered dicts (`dnil`/`dcons`) and lists (`anil`/`acons`). -/
inductive JVal : Type where
  | null : JVal
  | b : Bool → JVal
  | s : String → JVal
  | n : Nat → JVal
  | dnil : JVal
  | dcons : String → JVal → JVal → JVal
  | anil : JVal
  | acons : JVal → JVal → JVal
deriving DecidableEq, Repr

/-- Python truthiness: `None`, `False`, `""`, `0`, `{}` and `[]` are falsy. -/
def JVal.truthy : JVal → Bool
  | .null => false
  | .b x => x
  | .s x => !(x == "")
  | .n x => !(x == 0)
  | .dnil => false
  | .dcons _ _ _ => true
  | .anil => false
  | .acons _ _ => true

/-- Whether the value is a Python dict. -/
def JVal.isDict : JVal → Bool
  | .dnil => true
  | .dcons _ _ _ => true
  | _ => false

/-- Python `d.get(key)`: `none` when `d` is not a dict or lacks the key. -/
def JVal.dget : JVal → String → Option JVal
  | .dcons k v r, key => if k = key then some v else r.dget key
  | _, _ => none

/-- Python `d[key] = v` on a dict: replaces in place, or appends a fresh key
at the end (insertion order).  On non-dicts it is the identity; every use
below guards with `isDict` where Python would raise. -/
def JVal.dset : JVal → String → JVal → JVal
  | .dcons k v r, key, val => if k = key then .dcons k val r else .dcons k v (r.dset key val)
  | .dnil, key, val => .dcons key val .dnil
  | other, _, _ => other

/-- Python `d.update(kwargs)`: assign each key of `kwargs` in order. -/
def JVal.dupdate : JVal → JVal → JVal
  | d, .dcons k v r => (d.dset k v).dupdate r
  | d, _ => d

/-- Python `x == 1` for a `dsl_version` value (`1` and `True` compare equal
to `1` in Python). -/
def JVal.isPyOne : JVal → Bool
  | .n 1 => true
  | .b true => true
  | _ => false

/-- Python `len` for the sized values the module applies it to (dicts,
lists, strings); other shapes do not occur in the role payloads modelled
here and are given length 0. -/
def JVal.pyLen : JVal → Nat
  | .dcons _ _ r => 1 + r.pyLen
  | .acons _ r => 1 + r.pyLen
  | .s x => x.length
  | _ => 0

/-- The dict comprehension in `JobConf.update`:
`\x7brole: len(parties) for role, parties in self.role.items()\x7d`. -/
def roleCounts : JVal → JVal
  | .dcons k v r => .dcons k (.n v.pyLen) (roleCounts r)
  | _ => .dnil

/-- The Python exception classes raised by `_parser.py` code paths. -/
inductive PyErr : Type where
  | runtimeError : PyErr
  | attributeError : PyErr
  | keyError : PyErr
  | valueError : PyErr
deriving DecidableEq, Repr

/-- Python-dict association list lookup (`m[k]` when present). -/
def aget {κ α : Type} [DecidableEq κ] : List (κ × α) → κ → Option α
  | [], _ => none
  | p :: r, k => if p.1 = k then some p.2 else aget r k

/-- Python-dict assignment `m[k] = v`: replace in place or append. -/
def aset {κ α : Type} [DecidableEq κ] : List (κ × α) → κ → α → List (κ × α)
  | [], k, v => [(k, v)]
  | p :: r, k, v => if p.1 = k then (k, v) :: r else p :: aset r k v

/-- Python `del m[k]` (keys are unique, so removing the first is exact). -/
def adel {κ α : Type} [DecidableEq κ] : List (κ × α) → κ → List (κ × α)
  | [], _ => []
  | p :: r, k => if p.1 = k then r else p :: adel r k

/-- Python `m.setdefault(k, []).append(b)`. -/
def aappend {κ β : Type} [DecidableEq κ] : List (κ × List β) → κ → β → List (κ × List β)
  | [], k, b => [(k, [b])]
  | p :: r, k, b => if p.1 = k then (p.1, p.2 ++ [b]) :: r else p :: aappend r k b

/-- `JobConf.__init__`: initiator / role / job_parameters plus the
catch-all `**kwargs`. -/
structure JobConf : Type where
  initiator : JVal
  role : JVal
  job_parameters : JVal
  others_kwargs : JVal
deriving DecidableEq, Repr

/-- `JobConf.dsl_version`: `others_kwargs.get("dsl_version", 1)`. -/
def JobConf.dsl_version (c : JobConf) : JVal :=
  (c.others_kwargs.dget "dsl_version").getD (.n 1)

/-- `JobConf.update_job_common_parameters`: merge `kwargs` into
`job_parameters` (dsl version 1) or into `job_parameters["common"]`
(other versions, via `setdefault("common", \x7b\x7d).update(...)`).  Calling
`.update` / `.setdefault` on a non-dict raises `AttributeError`. -/
def JobConf.update_job_common_parameters (c : JobConf) (kwargs : JVal) : Except PyErr JobConf :=
  if !c.job_parameters.isDict then .error .attributeError
  else if c.dsl_version.isPyOne then
    .ok { c with job_parameters := c.job_parameters.dupdate kwargs }
  else
    match c.job_parameters.dget "common" with
    | none => .ok { c with job_parameters := c.job_parameters.dset "common" (JVal.dnil.dupdate kwargs) }
    | some sub =>
      if sub.isDict then
        .ok { c with job_parameters := c.job_parameters.dset "common" (sub.dupdate kwargs) }
      else .error .attributeError

/-- `_parser.Job`: name, submission conf, optional dsl payload and the
mutable set of unresolved dependency names (`pre_works`). -/
structure Job : Type where
  job_name : String
  job_conf : JobConf
  job_dsl : Option JVal
  pre_works : List JVal
deriving DecidableEq, Repr

/-- `Job.load`: `pre_works` starts empty and the `deps` value is added
exactly when it is truthy (`if job_configs.get("deps", None):`).
`deps = none` models an absent key. -/
def Job.load (job_name : String) (job_conf : JobConf) (job_dsl : Option JVal)
    (deps : Option JVal) : Job :=
  { job_name := job_name, job_conf := job_conf, job_dsl := job_dsl,
    pre_works := match deps with
      | some v => if v.truthy then [v] else []
      | none => [] }

/-- `Job.is_submit_ready`: `len(self.pre_works) == 0`. -/
def Job.is_submit_ready (j : Job) : Bool :=
  j.pre_works.length == 0

/-- `Job.set_pre_work`: raise `RuntimeError` unless `name` is in
`pre_works`; then merge `kwargs` into the conf and remove `name`. -/
def Job.set_pre_work (j : Job) (name : JVal) (kwargs : JVal) : Except PyErr Job :=
  if name ∈ j.pre_works then
    match j.job_conf.update_job_common_parameters kwargs with
    | .ok c => .ok { j with job_conf := c, pre_works := j.pre_works.erase name }
    | .error e => .error e
  else .error .runtimeError

/-- `_parser.Data`: the kwargs dict built by `Data.load` plus `role_str`. -/
structure Data : Type where
  config : JVal
  role_str : JVal
deriving DecidableEq, Repr

/-- `Data.load`.  File-system access is abstracted: `resolve` stands for
`path.parent.joinpath(·).resolve()` and `fsExists` for `Path.exists`.
Missing required keys raise `KeyError`; a missing file is NOT an error:
the raw reference `config["file"]` is stored instead of the resolved path. -/
def Data.load (config : JVal) (resolve : String → String) (fsExists : String → Bool) :
    Except PyErr Data :=
  match config.dget "head", config.dget "partition", config.dget "table_name",
      config.dget "namespace" with
  | some h, some p, some t, some ns =>
    match config.dget "file" with
    | some (.s f) =>
      let kwargs :=
        ((((JVal.dnil.dset "head" h).dset "partition" p).dset "table_name" t).dset
          "namespace" ns)
      let kwargs :=
        if fsExists (resolve f) then kwargs.dset "file" (.s (resolve f))
        else kwargs.dset "file" (.s f)
      let role := (config.dget "role").getD .null
      .ok { config := kwargs, role_str := if role = .s "guest" then .s "guest_0" else role }
    | _ => .error .keyError
  | _, _, _, _ => .error .keyError

/-- `Data.update`: `config.update(dict(work_mode=..., backend=...))`. -/
def Data.update (d : Data) (work_mode backend : JVal) : Data :=
  { d with config := (d.config.dset "work_mode" work_mode).dset "backend" backend }

/-- `_parser.PipelineJob` (script path kept abstract as a string). -/
structure PipelineJob : Type where
  job_name : String
  script_path : String
deriving DecidableEq, Repr

/-- `_parser.FinalStatus` with its constructor defaults. -/
structure FinalStatus : Type where
  name : String
  job_id : String
  status : String
  exception_id : String
  rest_dependency : List JVal
deriving DecidableEq, Repr

/-- `FinalStatus(name)` with all defaulted fields. -/
def FinalStatus.init (name : String) : FinalStatus :=
  { name := name, job_id := "-", status := "not submitted", exception_id := "-",
    rest_dependency := [] }

/-- `fate_test._config.Config` as seen by `_parser.py`: the execution-mode
and backend parameters together with the two party-extraction collaborators
(their bodies live outside this module, so only their interface — a value
or a raised exception — is assumed). -/
structure Config : Type where
  work_mode : JVal
  backend : JVal
  extract_initiator_role : JVal → Except PyErr JVal
  extract_role : JVal → Except PyErr JVal

/-- `JobConf.update`: re-extract initiator and role through the `Config`
collaborators, then merge `work_mode`/`backend` via
`update_job_common_parameters`.  The Python method mutates `self` field by
field, so an exception raised partway through leaves the conf partially
updated (in particular, `self.initiator` is already reassigned when
`extract_role` raises); the error therefore carries the conf as mutated up
to the raise point. -/
def JobConf.updateWith (c : JobConf) (cfg : Config) : Except (PyErr × JobConf) JobConf :=
  match c.initiator.dget "role" with
  | none => .error (.keyError, c)
  | some initRole =>
    match cfg.extract_initiator_role initRole with
    | .error e => .error (e, c)
    | .ok newInit =>
      let c1 := { c with initiator := newInit }
      match cfg.extract_role (roleCounts c1.role) with
      | .error e => .error (e, c1)
      | .ok newRole =>
        let c2 := { c1 with role := newRole }
        match c2.update_job_common_parameters
            ((JVal.dnil.dset "work_mode" cfg.work_mode).dset "backend" cfg.backend) with
        | .error e => .error (e, c2)
        | .ok c3 => .ok c3

/-- The loop `for name in job.pre_works: self._dependency.setdefault(name, []).append(job)`
over the job list, with `i` the index of the head job in the store. -/
def depFold (i : Nat) : List Job → List (JVal × List Nat) → List (JVal × List Nat)
  | [], dep => dep
  | j :: rest, dep =>
    depFold (i + 1) rest (j.pre_works.foldl (fun d name => aappend d name i) dep)

/-- The loop `if job.is_submit_ready(): self._ready_jobs.appendleft(job)`;
the list head is the LEFT end of the deque. -/
def readyFold (i : Nat) : List Job → List Nat → List Nat
  | [], rq => rq
  | j :: rest, rq => readyFold (i + 1) rest (if j.is_submit_ready then i :: rq else rq)

/-- Indices of the submit-ready jobs, in document order. -/
def readyIdx (i : Nat) : List Job → List Nat
  | [] => []
  | j :: rest => if j.is_submit_ready then i :: readyIdx (i + 1) rest else readyIdx (i + 1) rest

/-- The loop `self._final_status[job.job_name] = FinalStatus(job.job_name)`
over structured jobs. -/
def statusFoldJ : List Job → List (String × FinalStatus) → List (String × FinalStatus)
  | [], fs => fs
  | j :: rest, fs => statusFoldJ rest (aset fs j.job_name (FinalStatus.init j.job_name))

/-- The same loop over pipeline jobs. -/
def statusFoldP : List PipelineJob → List (String × FinalStatus) → List (String × FinalStatus)
  | [], fs => fs
  | j :: rest, fs => statusFoldP rest (aset fs j.job_name (FinalStatus.init j.job_name))

/-- `_parser.Testsuite`: the job store plus the three pieces of scheduler
state (`_dependency`, `_final_status`, `_ready_jobs`).  The dependency index
and ready queue hold indices into `jobs`; the ready queue's list head is the
LEFT end of the Python deque (`appendleft` = cons, `pop` takes the last). -/
structure Testsuite : Type where
  dataset : List Data
  jobs : List Job
  pipeline_jobs : List PipelineJob
  dependency : List (JVal × List Nat)
  final_status : List (String × FinalStatus)
  ready_jobs : List Nat
deriving DecidableEq, Repr

/-- `Testsuite.__init__`: build the dependency index, the status records and
the initial ready queue.  The Python constructor interleaves the three
per-job updates in one loop; they touch disjoint state, so they are split
into three folds over the same job list. -/
def Testsuite.mk_init (dataset : List Data) (jobs : List Job)
    (pipeline_jobs : List PipelineJob) : Testsuite :=
  { dataset := dataset, jobs := jobs, pipeline_jobs := pipeline_jobs,
    dependency := depFold 0 jobs [],
    final_status := statusFoldP pipeline_jobs (statusFoldJ jobs []),
    ready_jobs := readyFold 0 jobs [] }

/-- One step of `Testsuite.jobs_iter`: `self._ready_jobs.pop()` removes the
job at the RIGHT end of the deque (the last element of the list). -/
def Testsuite.next_ready (ts : Testsuite) : Option (Nat × Testsuite) :=
  match ts.ready_jobs.reverse with
  | [] => none
  | i :: rest => some (i, { ts with ready_jobs := rest.reverse })

/-- The full pop order of the current ready queue (head popped first). -/
def Testsuite.drain (ts : Testsuite) : List Nat :=
  ts.ready_jobs.reverse

/-- `Testsuite.model_in_dep`: `name in self._dependency`. -/
def Testsuite.model_in_dep (ts : Testsuite) (name : JVal) : Bool :=
  ts.dependency.any (fun p => p.1 = name)

/-- `Testsuite.get_dependent_jobs`: `self._dependency[name]`, `KeyError`
when absent. -/
def Testsuite.get_dependent_jobs (ts : Testsuite) (name : JVal) : Except PyErr (List Nat) :=
  match aget ts.dependency name with
  | some l => .ok l
  | none => .error .keyError

/-- `Testsuite.remove_dependency`: `del self._dependency[name]`, `KeyError`
when absent. -/
def Testsuite.remove_dependency (ts : Testsuite) (name : JVal) : Except PyErr Testsuite :=
  if ts.model_in_dep name then .ok { ts with dependency := adel ts.dependency name }
  else .error .keyError

/-- `Testsuite.feed_dep_model_info(job, name, model_info)`: delegate to
`job.set_pre_work` and push the job back (`appendleft`) onto the ready
queue when it became submit-ready.  The Python caller passes the job
object; here `i` is its index in the store. -/
def Testsuite.feed_dep_model_info (ts : Testsuite) (i : Nat) (name : JVal)
    (model_info : JVal) : Except PyErr Testsuite :=
  match ts.jobs[i]? with
  | none => .error .keyError
  | some job =>
    match job.set_pre_work name model_info with
    | .error e => .error e
    | .ok job1 =>
      .ok { ts with jobs := ts.jobs.set i job1,
                    ready_jobs := if job1.is_submit_ready then i :: ts.ready_jobs
                                  else ts.ready_jobs }

/-- The per-job body of `Testsuite.reflash_configs`: update each job's conf,
collecting jobs whose update raised `ValueError` (with their store index);
any other exception propagates.  A job whose update was rejected keeps the
partial mutation `JobConf.update` performed before the raise (the error's
conf payload), matching the in-place Python mutation. -/
def reflashJobs (cfg : Config) : Nat → List Job → Except PyErr (List Job × List (Nat × PyErr))
  | _, [] => .ok ([], [])
  | i, j :: rest =>
    match j.job_conf.updateWith cfg with
    | .ok c =>
      (reflashJobs cfg (i + 1) rest).map (fun p => ({ j with job_conf := c } :: p.1, p.2))
    | .error (.valueError, c) =>
      (reflashJobs cfg (i + 1) rest).map
        (fun p => ({ j with job_conf := c } :: p.1, (i, PyErr.valueError) :: p.2))
    | .error (e, _) => .error e

/-- `Testsuite.reflash_configs`: update every dataset config unconditionally,
then attempt every job's conf update, returning the `(job, error)` pairs of
the jobs rejected with `ValueError`. -/
def Testsuite.reflash_configs (ts : Testsuite) (cfg : Config) :
    Except PyErr (Testsuite × List (Nat × PyErr)) :=
  match reflashJobs cfg 0 ts.jobs with
  | .ok (jobs1, failed) =>
    .ok ({ ts with dataset := ts.dataset.map (fun d => d.update cfg.work_mode cfg.backend),
                   jobs := jobs1 }, failed)
  | .error e => .error e

/-- The three conditional `setattr` calls of `update_status`: overwrite a
field exactly when the corresponding argument is not `None`. -/
def applyFields (r : FinalStatus) (job_id status exception_id : Option String) :
    FinalStatus :=
  let r1 := match job_id with
    | some v => { r with job_id := v }
    | none => r
  let r2 := match status with
    | some v => { r1 with status := v }
    | none => r1
  match exception_id with
  | some v => { r2 with exception_id := v }
  | none => r2

/-- `Testsuite.update_status`: look the record up (`KeyError` when absent —
in Python the lookup happens on the first `setattr`, which occurs even when
every optional argument is `None` because `locals()` also contains `self`),
then overwrite exactly the non-`None` fields among `job_id`, `status` and
`exception_id`.  (The stray `setattr(record, "self", self)` the `locals()`
loop also performs creates a dynamic attribute no field of `FinalStatus`
corresponds to and nothing ever reads; it has no counterpart here.) -/
def Testsuite.update_status (ts : Testsuite) (job_name : String) (job_id : Option String)
    (status : Option String) (exception_id : Option String) : Except PyErr Testsuite :=
  match aget ts.final_status job_name with
  | none => .error .keyError
  | some r =>
    .ok { ts with final_status :=
                    aset ts.final_status job_name
                      (applyFields r job_id status exception_id) }

/-- The body of `self._final_status[job.job_name].rest_dependency.append(name)`:
`KeyError` when the job name has no record. -/
def appendRest (fs : List (String × FinalStatus)) (jn : String) (name : JVal) :
    Except PyErr (List (String × FinalStatus)) :=
  match aget fs jn with
  | some r => .ok (aset fs jn { r with rest_dependency := r.rest_dependency ++ [name] })
  | none => .error .keyError

/-- The inner loop of `get_final_status` for one dependency entry. -/
def restFoldIdx (jobs : List Job) (name : JVal) :
    List Nat → List (String × FinalStatus) → Except PyErr (List (String × FinalStatus))
  | [], fs => .ok fs
  | i :: rest, fs =>
    match jobs[i]? with
    | some job =>
      match appendRest fs job.job_name name with
      | .ok fs1 => restFoldIdx jobs name rest fs1
      | .error e => .error e
    | none => .error .keyError

/-- The outer loop of `get_final_status` over the dependency index. -/
def restFoldDep (jobs : List Job) :
    List (JVal × List Nat) → List (String × FinalStatus) →
      Except PyErr (List (String × FinalStatus))
  | [], fs => .ok fs
  | p :: rest, fs =>
    match restFoldIdx jobs p.1 p.2 fs with
    | .ok fs1 => restFoldDep jobs rest fs1
    | .error e => .error e

/-- `Testsuite.get_final_status`: append, for every dependency name still in
the index and every job waiting on it, that name to the job's
`rest_dependency` list, then return the (updated) mapping. -/
def Testsuite.get_final_status (ts : Testsuite) : Except PyErr Testsuite :=
  match restFoldDep ts.jobs ts.dependency ts.final_status with
  | .ok fs => .ok { ts with final_status := fs }
  | .error e => .error e

/-- One copy of `name` per index in `idxs` that points at a job named `k`. -/
def idxNames (jobs : List Job) (name : JVal) (k : String) (idxs : List Nat) : List JVal :=
  idxs.filterMap (fun i =>
    match jobs[i]? with
    | some job => if job.job_name = k then some name else none
    | none => none)

/-- All dependency names a `get_final_status` pass appends to job name `k`,
in index order. -/
def depNames (jobs : List Job) (dep : List (JVal × List Nat)) (k : String) : List JVal :=
  dep.foldr (fun p acc => idxNames jobs p.1 k p.2 ++ acc) []

/-- The names a `finalReport` run appends to job name `jn`'s rest-dependency
list: for each index entry in order, one copy of the dependency name per
waiting occurrence of a job named `jn`. -/
def Testsuite.outstanding (ts : Testsuite) (jn : String) : List JVal :=
  depNames ts.jobs ts.dependency jn

/-- Wellformedness used by `get_final_status`: every index entry points at a
stored job whose name has a status record. -/
def Testsuite.statusWF (ts : Testsuite) : Bool :=
  ts.dependency.all (fun p => p.2.all (fun i =>
    match ts.jobs[i]? with
    | some job => (aget ts.final_status job.job_name).isSome
    | none => false))

/-- States reachable from suite construction by the scheduler operations. -/
inductive Reachable : Testsuite → Prop where
  | init : ∀ dataset jobs pipeline_jobs,
      Reachable (Testsuite.mk_init dataset jobs pipeline_jobs)
  | feed : ∀ ts ts' i name info, Reachable ts →
      ts.feed_dep_model_info i name info = .ok ts' → Reachable ts'
  | drop : ∀ ts ts' name, Reachable ts →
      ts.remove_dependency name = .ok ts' → Reachable ts'
  | next : ∀ ts ts' i, Reachable ts →
      ts.next_ready = some (i, ts') → Reachable ts'
  | upd : ∀ ts ts' jn a b c, Reachable ts →
      ts.update_status jn a b c = .ok ts' → Reachable ts'

/-! ### Association-list lemmas -/

theorem aget_aset {κ α : Type} [DecidableEq κ] (m : List (κ × α)) (k : κ) (v : α) (k' : κ) :
    aget (aset m k v) k' = if k = k' then some v else aget m k' := by
  induction m with
  | nil => simp [aset, aget]
  | cons p r ih =>
    by_cases hp : p.1 = k
    · by_cases h : k = k'
      · subst h; simp [aset, aget, hp]
      · have hpk : ¬p.1 = k' := fun hh => h (hp ▸ hh)
        simp [aset, aget, hp, hpk, h]
    · by_cases hq : p.1 = k'
      · have hk : ¬k = k' := fun hh => hp (hh ▸ hq)
        simp [aset, aget, hp, hq, hk, Ne.symm hk]
      · simp [aset, aget, hp, hq, ih]

theorem mem_adel {κ α : Type} [DecidableEq κ] {m : List (κ × α)} {k : κ} {q : κ × α}
    (h : q ∈ adel m k) : q ∈ m := by
  induction m with
  | nil => simp [adel] at h
  | cons p r ih =>
    by_cases hp : p.1 = k
    · simp only [adel, if_pos hp] at h
      exact List.mem_cons_of_mem p h
    · simp only [adel, if_neg hp] at h
      rcases List.mem_cons.mp h with h1 | h1
      · exact h1 ▸ List.mem_cons_self p r
      · exact List.mem_cons_of_mem p (ih h1)

theorem aget_eq_none_iff {κ α : Type} [DecidableEq κ] (m : List (κ × α)) (k : κ) :
    aget m k = none ↔ ∀ q ∈ m, q.1 ≠ k := by
  induction m with
  | nil => simp [aget]
  | cons p r ih =>
    by_cases hp : p.1 = k
    · simp [aget, hp]
    · simp [aget, hp, ih]

theorem aset_fresh {κ α : Type} [DecidableEq κ] {m : List (κ × α)} {k : κ} (v : α)
    (h : aget m k = none) : aset m k v = m ++ [(k, v)] := by
  induction m with
  | nil => simp [aset]
  | cons p r ih =>
    simp only [aget] at h
    by_cases hp : p.1 = k
    · simp [hp] at h
    · simp only [aset, if_neg hp, List.cons_append, List.cons.injEq, true_and]
      exact ih (by simpa [hp] using h)

theorem aget_append_of_none {κ α : Type} [DecidableEq κ] {m : List (κ × α)} {k : κ}
    (m2 : List (κ × α)) (h : aget m k = none) : aget (m ++ m2) k = aget m2 k := by
  induction m with
  | nil => simp
  | cons p r ih =>
    simp only [aget] at h
    by_cases hp : p.1 = k
    · simp [hp] at h
    · simp only [List.cons_append, aget, if_neg hp]
      exact ih (by simpa [hp] using h)

/-! ### C1 / C3: the release protocol (`satisfy`) -/

theorem set_pre_work_ok {job : Job} {name info : JVal} {c : JobConf}
    (hmem : name ∈ job.pre_works)
    (hc : job.job_conf.update_job_common_parameters info = .ok c) :
    job.set_pre_work name info =
      .ok { job with job_conf := c, pre_works := job.pre_works.erase name } := by
  simp [Job.set_pre_work, hmem, hc]

/-- C1: for a dependency name in the job's unresolved set, `satisfy`
(`feed_dep_model_info`) merges the artifact fields into the job's submission
configuration (`update_job_common_parameters`), removes the name from the
unresolved set, and pushes the job onto the ready queue exactly when the set
becomes empty; a job whose only declared dependency is `name` is not ready
before, is ready and enqueued after, and a second `satisfy` of the same name
fails. -/
theorem C1_feed_dep_model_info_satisfies (ts : Testsuite) (i : Nat) (job : Job)
    (name info : JVal) (c : JobConf)
    (hj : ts.jobs[i]? = some job) (hmem : name ∈ job.pre_works)
    (hc : job.job_conf.update_job_common_parameters info = .ok c) :
    ts.feed_dep_model_info i name info =
      .ok { ts with
              jobs := ts.jobs.set i { job with job_conf := c,
                                               pre_works := job.pre_works.erase name },
              ready_jobs := if job.pre_works.erase name = [] then i :: ts.ready_jobs
                            else ts.ready_jobs }
    ∧ (job.pre_works = [name] →
        job.is_submit_ready = false ∧
        ∃ ts', ts.feed_dep_model_info i name info = .ok ts' ∧
          ts'.ready_jobs = i :: ts.ready_jobs ∧
          ts'.jobs[i]? = some { job with job_conf := c, pre_works := [] } ∧
          Job.is_submit_ready { job with job_conf := c, pre_works := [] } = true ∧
          ∀ info2, ts'.feed_dep_model_info i name info2 = .error .runtimeError) := by
  have h1 := set_pre_work_ok hmem hc
  have hmain : ts.feed_dep_model_info i name info =
      .ok { ts with
              jobs := ts.jobs.set i { job with job_conf := c,
                                               pre_works := job.pre_works.erase name },
              ready_jobs := if job.pre_works.erase name = [] then i :: ts.ready_jobs
                            else ts.ready_jobs } := by
    simp only [Testsuite.feed_dep_model_info, hj, h1, Job.is_submit_ready]
    by_cases he : job.pre_works.erase name = []
    · simp [he]
    · have : ¬(job.pre_works.erase name).length = 0 := by
        simpa [List.length_eq_zero] using he
      simp [he, this]
  refine ⟨hmain, fun hpw => ?_⟩
  have herase : job.pre_works.erase name = [] := by
    simp [hpw]
  have hlt : i < ts.jobs.length := (List.getElem?_eq_some.mp hj).1
  rw [herase] at hmain
  simp only [if_pos rfl] at hmain
  refine ⟨by simp [Job.is_submit_ready, hpw], _, hmain, rfl, ?_, by simp [Job.is_submit_ready], ?_⟩
  · simp [List.getElem?_set, hlt]
  · intro info2
    simp [Testsuite.feed_dep_model_info, List.getElem?_set, hlt, Job.set_pre_work]

/-- The empty submission configuration payload (example fixture). -/
def exConf0 : JobConf := JobConf.mk JVal.dnil JVal.dnil JVal.dnil JVal.dnil

/-- Example job depending on `"a"` (fixture). -/
def exJobC : Job := Job.mk "c" exConf0 none [JVal.s "a"]

/-- Example one-job suite (fixture). -/
def exTsC : Testsuite := Testsuite.mk_init [] [exJobC] []

/-- Example artifact payload `\x7bmodel_id: "m1"\x7d` (fixture). -/
def exInfo : JVal := JVal.dnil.dset "model_id" (JVal.s "m1")

/-- `exConf0` after merging `exInfo` (fixture). -/
def exConfM : JobConf := JobConf.mk JVal.dnil JVal.dnil exInfo JVal.dnil

/-- Closed witness for C1 at a one-dependency job. -/
theorem C1_witness :
    exTsC.feed_dep_model_info 0 (JVal.s "a") exInfo =
      .ok { exTsC with
              jobs := exTsC.jobs.set 0 { exJobC with job_conf := exConfM, pre_works := [] },
              ready_jobs := 0 :: exTsC.ready_jobs } := by
  have h := C1_feed_dep_model_info_satisfies exTsC 0 exJobC (JVal.s "a") exInfo exConfM
    rfl (by decide) rfl
  rw [h.1]
  rfl

/-- C3: satisfying a dependency the job does not currently declare raises
`RuntimeError` (both in `Job.set_pre_work` and through
`Testsuite.feed_dep_model_info`); the error result carries no updated state,
so the job's configuration, its unresolved set and the ready queue are those
of the pre-call suite. -/
theorem C3_satisfy_undeclared_fails (ts : Testsuite) (i : Nat) (job : Job)
    (name info : JVal)
    (hj : ts.jobs[i]? = some job) (hmem : name ∉ job.pre_works) :
    job.set_pre_work name info = .error .runtimeError ∧
    ts.feed_dep_model_info i name info = .error .runtimeError := by
  have h1 : job.set_pre_work name info = .error .runtimeError := by
    simp [Job.set_pre_work, hmem]
  exact ⟨h1, by simp [Testsuite.feed_dep_model_info, hj, h1]⟩

/-- Closed witness for C3: feeding a never-declared name fails. -/
theorem C3_witness :
    exTsC.feed_dep_model_info 0 (JVal.s "zzz") JVal.dnil = .error .runtimeError :=
  (C3_satisfy_undeclared_fails exTsC 0 exJobC (JVal.s "zzz") JVal.dnil rfl
    (by decide)).2

/-! ### C2: ready-queue consumption order -/

/-- Example dependency-free job `"a"` (fixture). -/
def exJobA : Job := Job.mk "a" exConf0 none []

/-- Example dependency-free job `"b"` (fixture). -/
def exJobB : Job := Job.mk "b" exConf0 none []

/-- Example two-job suite, both jobs initially ready (fixture). -/
def exTsAB : Testsuite := Testsuite.mk_init [] [exJobA, exJobB] []

theorem readyFold_eq (l : List Job) : ∀ (i : Nat) (rq : List Nat),
    readyFold i l rq = (readyIdx i l).reverse ++ rq := by
  induction l with
  | nil => intro i rq; simp [readyFold, readyIdx]
  | cons j rest ih =>
    intro i rq
    cases hr : j.is_submit_ready
    · simp [readyFold, readyIdx, hr, ih]
    · simp [readyFold, readyIdx, hr, ih]

/-- C2 as stated is false: in a suite with two initially-ready jobs (document
order `"a"` then `"b"`), the first `jobs_iter` yield is job 0 (`"a"`), i.e.
document order, not the reverse document order the claim asserts
(`appendleft` + `pop` make the deque a FIFO queue, not a stack). -/
theorem C2_counterexample :
    exTsAB.next_ready.map Prod.fst = some 0 ∧
    ¬(exTsAB.next_ready.map Prod.fst = some 1) := by
  constructor
  · rfl
  · intro h
    rw [show exTsAB.next_ready.map Prod.fst = some 0 from rfl] at h
    simp at h

/-- C2 amended: the ready queue is consumed in FIFO order.  `drain` is the
pop order of the current queue (head popped first): a freshly built suite
drains its initially-ready jobs in document order (`readyIdx`), each
`next_ready` pops the head of the drain order, and a job released by
`feed_dep_model_info` is appended at the BACK of the drain order — the most
recently released job is yielded last among currently queued jobs. -/
theorem C2_ready_queue_fifo :
    (∀ dataset jobs pipeline_jobs,
      (Testsuite.mk_init dataset jobs pipeline_jobs).drain = readyIdx 0 jobs) ∧
    (∀ ts : Testsuite, ∀ i ts', ts.next_ready = some (i, ts') →
      ts.drain = i :: ts'.drain) ∧
    (∀ ts : Testsuite, ts.next_ready = none → ts.drain = []) ∧
    (∀ ts : Testsuite, ∀ i name info ts',
      ts.feed_dep_model_info i name info = .ok ts' →
      ts'.drain = ts.drain ++ [i] ∨ ts'.drain = ts.drain) := by
  refine ⟨?_, ?_, ?_, ?_⟩
  · intro dataset jobs pipeline_jobs
    simp [Testsuite.drain, Testsuite.mk_init, readyFold_eq]
  · intro ts i ts' h
    cases hrev : ts.ready_jobs.reverse with
    | nil => simp [Testsuite.next_ready, hrev] at h
    | cons a rest =>
      simp only [Testsuite.next_ready, hrev] at h
      obtain ⟨rfl, rfl⟩ := by simpa using h
      simp [Testsuite.drain, hrev]
  · intro ts h
    cases hrev : ts.ready_jobs.reverse with
    | nil => simp [Testsuite.drain, hrev]
    | cons a rest => simp [Testsuite.next_ready, hrev] at h
  · intro ts i name info ts' h
    cases hj : ts.jobs[i]? with
    | none => simp [Testsuite.feed_dep_model_info, hj] at h
    | some job =>
      cases hsp : job.set_pre_work name info with
      | error e => simp [Testsuite.feed_dep_model_info, hj, hsp] at h
      | ok job1 =>
        simp only [Testsuite.feed_dep_model_info, hj, hsp] at h
        cases hr : job1.is_submit_ready
        · simp only [hr, Bool.false_eq_true, if_false] at h
          right
          obtain rfl := by simpa using h
          rfl
        · simp only [hr, if_true] at h
          left
          obtain rfl := by simpa using h
          simp [Testsuite.drain]

/-- Closed witness for the amended C2: the two-ready-job suite drains in
document order. -/
theorem C2_witness : exTsAB.drain = [0, 1] := by
  show (Testsuite.mk_init [] [exJobA, exJobB] []).drain = [0, 1]
  rw [C2_ready_queue_fifo.1 [] [exJobA, exJobB] []]
  decide

/-! ### C9: dataset loading with a missing referenced file -/

/-- C9: with the required fields present and the file reference a string,
`Data.load` succeeds whether or not the referenced file exists; when the
resolved path does not exist the RAW reference from the configuration is
stored under `"file"`, and when it exists the resolved path is stored. -/
theorem C9_data_load_missing_file (config : JVal) (resolve : String → String)
    (fsExists : String → Bool) (hv pv tv nv : JVal) (f : String)
    (hh : config.dget "head" = some hv) (hp : config.dget "partition" = some pv)
    (ht : config.dget "table_name" = some tv) (hn : config.dget "namespace" = some nv)
    (hf : config.dget "file" = some (JVal.s f)) :
    (fsExists (resolve f) = false →
      Data.load config resolve fsExists = .ok
        { config := ((((JVal.dnil.dset "head" hv).dset "partition" pv).dset
            "table_name" tv).dset "namespace" nv).dset "file" (JVal.s f),
          role_str := if (config.dget "role").getD .null = JVal.s "guest"
            then JVal.s "guest_0" else (config.dget "role").getD .null }) ∧
    (fsExists (resolve f) = true →
      Data.load config resolve fsExists = .ok
        { config := ((((JVal.dnil.dset "head" hv).dset "partition" pv).dset
            "table_name" tv).dset "namespace" nv).dset "file" (JVal.s (resolve f)),
          role_str := if (config.dget "role").getD .null = JVal.s "guest"
            then JVal.s "guest_0" else (config.dget "role").getD .null }) := by
  constructor <;> intro hex <;> simp [Data.load, hh, hp, ht, hn, hf, hex]

/-- Example dataset configuration (fixture): all required fields, no role. -/
def exDataCfg : JVal :=
  ((((JVal.dnil.dset "file" (JVal.s "data/x.csv")).dset "head" (JVal.n 1)).dset
    "partition" (JVal.n 4)).dset "table_name" (JVal.s "t")).dset "namespace" (JVal.s "ns")

/-- Closed witness for C9: a missing file stores the raw reference. -/
theorem C9_witness :
    Data.load exDataCfg (fun p => String.append "/base/" p) (fun _ => false) = .ok
      { config := ((((JVal.dnil.dset "head" (JVal.n 1)).dset "partition" (JVal.n 4)).dset
          "table_name" (JVal.s "t")).dset "namespace" (JVal.s "ns")).dset "file"
          (JVal.s "data/x.csv"),
        role_str := JVal.null } := by
  have h := (C9_data_load_missing_file exDataCfg (fun p => String.append "/base/" p)
    (fun _ => false) (JVal.n 1) (JVal.n 4) (JVal.s "t") (JVal.s "ns") "data/x.csv"
    rfl rfl rfl rfl rfl).1 rfl
  rw [h]
  rfl

/-! ### C10: `Job.load` dependency truthiness and the dependency index -/

theorem aappend_elem {κ β : Type} [DecidableEq κ] (R : κ → β → Prop)
    {m : List (κ × List β)} {k : κ} {b : β}
    (hm : ∀ q ∈ m, ∀ x ∈ q.2, R q.1 x) (hb : R k b) :
    ∀ q ∈ aappend m k b, ∀ x ∈ q.2, R q.1 x := by
  induction m with
  | nil =>
    intro q hq x hx
    simp only [aappend, List.mem_singleton] at hq
    subst hq
    simp only [List.mem_singleton] at hx
    subst hx
    exact hb
  | cons p r ih =>
    by_cases hp : p.1 = k
    · intro q hq x hx
      simp only [aappend, if_pos hp] at hq
      rcases List.mem_cons.mp hq with rfl | hq1
      · rcases List.mem_append.mp hx with hx1 | hx1
        · exact hm p (List.mem_cons_self p r) x hx1
        · simp only [List.mem_singleton] at hx1
          subst hx1
          rw [hp]
          exact hb
      · exact hm q (List.mem_cons_of_mem p hq1) x hx
    · intro q hq x hx
      simp only [aappend, if_neg hp] at hq
      rcases List.mem_cons.mp hq with rfl | hq1
      · exact hm q (List.mem_cons_self q r) x hx
      · exact ih (fun q' hq' => hm q' (List.mem_cons_of_mem p hq')) q hq1 x hx

theorem foldl_aappend_elem {κ β : Type} [DecidableEq κ] (R : κ → β → Prop) (b : β) :
    ∀ (names : List κ) (m : List (κ × List β)),
    (∀ q ∈ m, ∀ x ∈ q.2, R q.1 x) → (∀ nm ∈ names, R nm b) →
    ∀ q ∈ names.foldl (fun d nm => aappend d nm b) m, ∀ x ∈ q.2, R q.1 x := by
  intro names
  induction names with
  | nil => intro m hm _ q hq; exact hm q hq
  | cons nm rest ih =>
    intro m hm hnames
    simp only [List.foldl_cons]
    exact ih (aappend m nm b)
      (aappend_elem R hm (hnames nm (List.mem_cons_self nm rest)))
      (fun nm' h => hnames nm' (List.mem_cons_of_mem nm h))

theorem depFold_elem (R : JVal → Nat → Prop) :
    ∀ (l : List Job) (i : Nat) (dep : List (JVal × List Nat)),
    (∀ q ∈ dep, ∀ x ∈ q.2, R q.1 x) →
    (∀ t j, l[t]? = some j → ∀ nm ∈ j.pre_works, R nm (i + t)) →
    ∀ q ∈ depFold i l dep, ∀ x ∈ q.2, R q.1 x := by
  intro l
  induction l with
  | nil => intro i dep hdep _ q hq; exact hdep q hq
  | cons j rest ih =>
    intro i dep hdep hjobs
    simp only [depFold]
    apply ih (i + 1)
    · apply foldl_aappend_elem R i j.pre_works dep hdep
      intro nm hnm
      have h0 := hjobs 0 j (by simp) nm hnm
      simpa using h0
    · intro t j' hj' nm hnm
      have h1 := hjobs (t + 1) j' (by simpa using hj') nm hnm
      have heq : i + (t + 1) = (i + 1) + t := by omega
      exact heq ▸ h1

/-- C10: `Job.load` puts at most one name in the unresolved set, and the set
is empty — the job is immediately submit-ready — whenever the declared
`deps` value is absent or falsy (None, empty string, …), not only when
omitted; moreover the dependency index of a freshly built suite only ever
contains jobs with a non-empty unresolved set, so such a job never enters
the index. -/
theorem C10_job_load_falsy_deps :
    (∀ jn conf dsl deps, (Job.load jn conf dsl deps).pre_works.length ≤ 1) ∧
    (∀ jn conf dsl deps,
      deps = none ∨ (∃ v, deps = some v ∧ v.truthy = false) →
      (Job.load jn conf dsl deps).pre_works = [] ∧
        (Job.load jn conf dsl deps).is_submit_ready = true) ∧
    (∀ dataset jobs pipeline_jobs q x,
      q ∈ (Testsuite.mk_init dataset jobs pipeline_jobs).dependency → x ∈ q.2 →
      ∃ j, jobs[x]? = some j ∧ q.1 ∈ j.pre_works ∧ j.pre_works ≠ []) := by
  refine ⟨?_, ?_, ?_⟩
  · intro jn conf dsl deps
    cases deps with
    | none => simp [Job.load]
    | some v => cases hv : v.truthy <;> simp [Job.load, hv]
  · intro jn conf dsl deps h
    rcases h with rfl | ⟨v, rfl, hv⟩
    · simp [Job.load, Job.is_submit_ready]
    · simp [Job.load, hv, Job.is_submit_ready]
  · intro dataset jobs pipeline_jobs q x hq hx
    refine depFold_elem
      (fun nm idx => ∃ j, jobs[idx]? = some j ∧ nm ∈ j.pre_works ∧ j.pre_works ≠ [])
      jobs 0 [] (by simp) ?_ q hq x hx
    intro t j hj nm hnm
    exact ⟨j, by simpa using hj, hnm, List.ne_nil_of_mem hnm⟩

/-- Closed witness for C10: an empty-string `deps` yields an empty
unresolved set and an immediately ready job. -/
theorem C10_witness :
    (Job.load "x" exConf0 none (some (JVal.s ""))).pre_works = [] ∧
      (Job.load "x" exConf0 none (some (JVal.s ""))).is_submit_ready = true :=
  C10_job_load_falsy_deps.2.1 "x" exConf0 none (some (JVal.s ""))
    (Or.inr ⟨JVal.s "", rfl, rfl⟩)

/-! ### C5: status-record creation at suite construction -/

/-- The status-seeding loop, abstracted over the seeded names. -/
def statusFoldN : List String → List (String × FinalStatus) → List (String × FinalStatus)
  | [], fs => fs
  | nm :: rest, fs => statusFoldN rest (aset fs nm (FinalStatus.init nm))

theorem statusFoldJ_eq (l : List Job) : ∀ fs,
    statusFoldJ l fs = statusFoldN (l.map Job.job_name) fs := by
  induction l with
  | nil => intro fs; rfl
  | cons j rest ih => intro fs; simp [statusFoldJ, statusFoldN, ih]

theorem statusFoldP_eq (l : List PipelineJob) : ∀ fs,
    statusFoldP l fs = statusFoldN (l.map PipelineJob.job_name) fs := by
  induction l with
  | nil => intro fs; rfl
  | cons j rest ih => intro fs; simp [statusFoldP, statusFoldN, ih]

theorem statusFoldN_fresh : ∀ (names : List String) (fs : List (String × FinalStatus)),
    names.Nodup → (∀ nm ∈ names, aget fs nm = none) →
    statusFoldN names fs = fs ++ names.map (fun nm => (nm, FinalStatus.init nm)) := by
  intro names
  induction names with
  | nil => intro fs _ _; simp [statusFoldN]
  | cons nm rest ih =>
    intro fs hnd hfresh
    obtain ⟨hnotin, hndrest⟩ := List.nodup_cons.mp hnd
    simp only [statusFoldN]
    rw [aset_fresh _ (hfresh nm (List.mem_cons_self nm rest))]
    rw [ih (fs ++ [(nm, FinalStatus.init nm)]) hndrest ?_]
    · simp
    · intro nm' h'
      rw [aget_append_of_none _ (hfresh nm' (List.mem_cons_of_mem nm h'))]
      have hne : ¬nm = nm' := fun hh => hnotin (hh ▸ h')
      simp [aget, hne]

/-- C5: a suite built from N structured jobs and M scripted jobs has exactly
N+M status records — one per job name, in document order (structured first),
each initialized with status "not submitted", job id "-", exception id "-"
and an empty rest-dependency list.  The hypothesis is the model invariant
that job names are unique within a suite. -/
theorem C5_initial_status_records (dataset : List Data) (jobs : List Job)
    (pipeline_jobs : List PipelineJob)
    (hnd : (jobs.map Job.job_name ++ pipeline_jobs.map PipelineJob.job_name).Nodup) :
    (Testsuite.mk_init dataset jobs pipeline_jobs).final_status =
      jobs.map (fun j => (j.job_name, FinalStatus.init j.job_name)) ++
      pipeline_jobs.map (fun p => (p.job_name, FinalStatus.init p.job_name)) ∧
    (Testsuite.mk_init dataset jobs pipeline_jobs).final_status.length =
      jobs.length + pipeline_jobs.length ∧
    (∀ q ∈ (Testsuite.mk_init dataset jobs pipeline_jobs).final_status,
      q.2.name = q.1 ∧ q.2.status = "not submitted" ∧ q.2.job_id = "-" ∧
      q.2.exception_id = "-" ∧ q.2.rest_dependency = []) := by
  obtain ⟨hndJ, hndP, hdisj⟩ := List.nodup_append.mp hnd
  have hmain : (Testsuite.mk_init dataset jobs pipeline_jobs).final_status =
      jobs.map (fun j => (j.job_name, FinalStatus.init j.job_name)) ++
      pipeline_jobs.map (fun p => (p.job_name, FinalStatus.init p.job_name)) := by
    show statusFoldP pipeline_jobs (statusFoldJ jobs []) = _
    rw [statusFoldJ_eq, statusFoldP_eq]
    rw [statusFoldN_fresh (jobs.map Job.job_name) [] hndJ (by intro nm _; rfl)]
    rw [statusFoldN_fresh (pipeline_jobs.map PipelineJob.job_name) _ hndP ?_]
    · rw [List.nil_append, List.map_map, List.map_map]
      rfl
    · intro nm h'
      rw [List.nil_append, aget_eq_none_iff]
      intro q hq
      rcases List.mem_map.mp hq with ⟨nm0, hnm0, rfl⟩
      dsimp only
      intro heq
      exact hdisj (heq ▸ hnm0) h'
  refine ⟨hmain, by rw [hmain]; simp, ?_⟩
  intro q hq
  rw [hmain] at hq
  rcases List.mem_append.mp hq with hq1 | hq1
  · rcases List.mem_map.mp hq1 with ⟨j, _, rfl⟩
    simp [FinalStatus.init]
  · rcases List.mem_map.mp hq1 with ⟨p, _, rfl⟩
    simp [FinalStatus.init]

/-- Closed witness for C5 on a two-job, one-script suite. -/
theorem C5_witness :
    (Testsuite.mk_init [] [exJobA, exJobB] [PipelineJob.mk "p" "s.py"]).final_status.length
      = 2 + 1 :=
  (C5_initial_status_records [] [exJobA, exJobB] [PipelineJob.mk "p" "s.py"]
    (by decide)).2.1

/-! ### C6: `update_status` updates exactly the provided fields -/

theorem applyFields_eq (r : FinalStatus) (jid st eid : Option String) :
    applyFields r jid st eid =
      { name := r.name, job_id := jid.getD r.job_id, status := st.getD r.status,
        exception_id := eid.getD r.exception_id,
        rest_dependency := r.rest_dependency } := by
  cases jid <;> cases st <;> cases eid <;> rfl

/-- C6: for a registered job name, `update_status` overwrites exactly the
provided (non-`None`) fields among job id, status and exception id on that
record, leaving its other fields and every other record unchanged (and the
rest of the suite state untouched); for an unregistered name it fails with
`KeyError` and no record changes. -/
theorem C6_update_status_frame (ts : Testsuite) (jn : String)
    (jid st eid : Option String) :
    (∀ r, aget ts.final_status jn = some r →
      ts.update_status jn jid st eid =
        .ok { ts with final_status :=
                        aset ts.final_status jn (applyFields r jid st eid) } ∧
      applyFields r jid st eid =
        { name := r.name, job_id := jid.getD r.job_id, status := st.getD r.status,
          exception_id := eid.getD r.exception_id,
          rest_dependency := r.rest_dependency } ∧
      aget (aset ts.final_status jn (applyFields r jid st eid)) jn =
        some (applyFields r jid st eid) ∧
      (∀ k, k ≠ jn → aget (aset ts.final_status jn (applyFields r jid st eid)) k =
        aget ts.final_status k)) ∧
    (aget ts.final_status jn = none →
      ts.update_status jn jid st eid = .error .keyError) := by
  constructor
  · intro r hr
    refine ⟨by simp [Testsuite.update_status, hr], applyFields_eq r jid st eid, ?_, ?_⟩
    · rw [aget_aset]
      simp
    · intro k hk
      rw [aget_aset]
      simp [Ne.symm hk]
  · intro hr
    simp [Testsuite.update_status, hr]

/-- Closed witness for C6: updating only the job id of a registered record
keeps the default status and exception id. -/
theorem C6_witness :
    exTsC.update_status "c" (some "j1") none none =
      .ok { exTsC with final_status :=
                         aset exTsC.final_status "c"
                           (applyFields (FinalStatus.init "c") (some "j1") none none) } ∧
    applyFields (FinalStatus.init "c") (some "j1") none none =
      { name := "c", job_id := "j1", status := "not submitted", exception_id := "-",
        rest_dependency := [] } := by
  have h := (C6_update_status_frame exTsC "c" (some "j1") none none).1
    (FinalStatus.init "c") rfl
  exact ⟨h.1, h.2.1⟩

/-! ### C7: environment propagation with collected per-job failures -/

/-- The in-place effect of the `reflash_configs` loop on one job: the fully
updated conf on success, the partially updated conf (mutations up to the
raise point) on a caught failure. -/
def reflashedJob (cfg : Config) (j : Job) : Job :=
  match j.job_conf.updateWith cfg with
  | .ok c => { j with job_conf := c }
  | .error (_, c) => { j with job_conf := c }

/-- The `failed` list accumulated by `reflash_configs`, with `i` the store
index of the head job. -/
def reflashFailures (cfg : Config) : Nat → List Job → List (Nat × PyErr)
  | _, [] => []
  | i, j :: rest =>
    match j.job_conf.updateWith cfg with
    | .error (.valueError, _) => (i, PyErr.valueError) :: reflashFailures cfg (i + 1) rest
    | _ => reflashFailures cfg (i + 1) rest

/-- No job's conf update raises anything but the caught `ValueError`. -/
def reflashSafe (cfg : Config) (jobs : List Job) : Bool :=
  jobs.all (fun j =>
    match j.job_conf.updateWith cfg with
    | .ok _ => true
    | .error (.valueError, _) => true
    | .error _ => false)

theorem reflashJobs_eq (cfg : Config) : ∀ (l : List Job) (i : Nat),
    reflashSafe cfg l = true →
    reflashJobs cfg i l = .ok (l.map (reflashedJob cfg), reflashFailures cfg i l) := by
  intro l
  induction l with
  | nil => intro i _; rfl
  | cons j rest ih =>
    intro i hsafe
    rw [reflashSafe, List.all_cons, Bool.and_eq_true] at hsafe
    obtain ⟨hj, hrest⟩ := hsafe
    cases hupd : j.job_conf.updateWith cfg with
    | ok c =>
      simp [reflashJobs, hupd, ih (i + 1) hrest, reflashedJob, reflashFailures,
        Except.map]
    | error p =>
      obtain ⟨e, c⟩ := p
      cases e with
      | valueError =>
        simp [reflashJobs, hupd, ih (i + 1) hrest, reflashedJob, reflashFailures,
          Except.map]
      | runtimeError => rw [hupd] at hj; exact absurd hj (by simp)
      | attributeError => rw [hupd] at hj; exact absurd hj (by simp)
      | keyError => rw [hupd] at hj; exact absurd hj (by simp)

theorem mem_reflashFailures (cfg : Config) :
    ∀ (l : List Job) (n t : Nat) (j : Job) (c : JobConf),
    l[t]? = some j → j.job_conf.updateWith cfg = .error (.valueError, c) →
    (n + t, PyErr.valueError) ∈ reflashFailures cfg n l := by
  intro l
  induction l with
  | nil => intro n t j c h; simp at h
  | cons j0 rest ih =>
    intro n t j c hj hupd
    cases t with
    | zero =>
      simp only [List.getElem?_cons_zero, Option.some.injEq] at hj
      subst hj
      simp [reflashFailures, hupd]
    | succ t1 =>
      have hmem := ih (n + 1) t1 j c (by simpa using hj) hupd
      have heq : n + (t1 + 1) = (n + 1) + t1 := by omega
      rw [heq]
      cases h0 : j0.job_conf.updateWith cfg with
      | ok c0 => simpa [reflashFailures, h0] using hmem
      | error p =>
        obtain ⟨e, c0⟩ := p
        cases e with
        | valueError =>
          simp only [reflashFailures, h0]
          exact List.mem_cons_of_mem _ hmem
        | runtimeError => simpa [reflashFailures, h0] using hmem
        | attributeError => simpa [reflashFailures, h0] using hmem
        | keyError => simpa [reflashFailures, h0] using hmem

/-- C7: `reflash_configs` updates every dataset descriptor's configuration
with the execution-mode/backend parameters unconditionally, attempts the
configuration update on every structured job, returns the collected
`(job, error)` pairs for exactly the jobs rejected with `ValueError`
instead of raising, and updates every job whose update succeeds even when
other jobs in the batch fail.  A rejected job is left with whatever fields
`JobConf.update` had already reassigned in place before the raise (the
conf carried by the error), exactly as in the Python source. -/
theorem C7_reflash_configs_collects_failures (ts : Testsuite) (cfg : Config)
    (hsafe : reflashSafe cfg ts.jobs = true) :
    ts.reflash_configs cfg = .ok
      ({ ts with dataset := ts.dataset.map (fun d => d.update cfg.work_mode cfg.backend),
                 jobs := ts.jobs.map (reflashedJob cfg) },
       reflashFailures cfg 0 ts.jobs) ∧
    (∀ (i : Nat) (j : Job) (c : JobConf),
      ts.jobs[i]? = some j → j.job_conf.updateWith cfg = .ok c →
      (ts.jobs.map (reflashedJob cfg))[i]? = some { j with job_conf := c }) ∧
    (∀ (i : Nat) (j : Job) (c : JobConf),
      ts.jobs[i]? = some j → j.job_conf.updateWith cfg = .error (.valueError, c) →
      (ts.jobs.map (reflashedJob cfg))[i]? = some { j with job_conf := c } ∧
        (i, PyErr.valueError) ∈ reflashFailures cfg 0 ts.jobs) := by
  refine ⟨?_, ?_, ?_⟩
  · simp [Testsuite.reflash_configs, reflashJobs_eq cfg ts.jobs 0 hsafe]
  · intro i j c hj hupd
    rw [List.getElem?_map, hj]
    simp [reflashedJob, hupd]
  · intro i j c hj hupd
    refine ⟨?_, ?_⟩
    · rw [List.getElem?_map, hj]
      simp [reflashedJob, hupd]
    · have hmem := mem_reflashFailures cfg ts.jobs 0 i j c hj hupd
      simpa using hmem

/-- A `Config` whose role extraction rejects with `ValueError` any role
payload containing the key `"bad"`; initiator extraction always succeeds,
so a rejected job has already had its initiator reassigned (fixture). -/
def exConfigF : Config :=
  { work_mode := JVal.n 1, backend := JVal.n 0,
    extract_initiator_role := fun _ => .ok (JVal.s "init_done"),
    extract_role := fun counts =>
      match counts.dget "bad" with
      | some _ => .error .valueError
      | none => .ok counts }

/-- A job whose conf update succeeds under `exConfigF` (fixture). -/
def exJobGood : Job :=
  Job.mk "g"
    (JobConf.mk (JVal.dnil.dset "role" (JVal.s "g")) (JVal.dnil.dset "guest" JVal.anil)
      JVal.dnil JVal.dnil)
    none []

/-- A job whose conf update raises `ValueError` under `exConfigF`, from the
second (role) extraction — after the initiator reassignment (fixture). -/
def exJobBad : Job :=
  Job.mk "x"
    (JobConf.mk (JVal.dnil.dset "role" (JVal.s "x")) (JVal.dnil.dset "bad" JVal.anil)
      JVal.dnil JVal.dnil)
    none []

/-- Two-job suite for the reflash scenario (fixture). -/
def exTsRF : Testsuite := Testsuite.mk_init [] [exJobGood, exJobBad] []

/-- Closed witness for C7: one invalid job yields exactly one collected
`(job, error)` pair while the other job is updated; the rejected job keeps
the initiator reassignment performed before the caught raise. -/
theorem C7_witness :
    reflashSafe exConfigF exTsRF.jobs = true ∧
    exTsRF.reflash_configs exConfigF = .ok
      ({ exTsRF with dataset := exTsRF.dataset.map
                       (fun d => d.update exConfigF.work_mode exConfigF.backend),
                     jobs := exTsRF.jobs.map (reflashedJob exConfigF) },
       reflashFailures exConfigF 0 exTsRF.jobs) ∧
    reflashFailures exConfigF 0 exTsRF.jobs = [(1, PyErr.valueError)] ∧
    (exTsRF.jobs.map (reflashedJob exConfigF))[1]? = some
      { exJobBad with job_conf :=
          { exJobBad.job_conf with initiator := JVal.s "init_done" } } :=
  ⟨rfl, (C7_reflash_configs_collects_failures exTsRF exConfigF rfl).1, rfl,
    ((C7_reflash_configs_collects_failures exTsRF exConfigF rfl).2.2 1 exJobBad
      { exJobBad.job_conf with initiator := JVal.s "init_done" } rfl rfl).1⟩

/-! ### C8: the dependency-index invariant -/

theorem aappend_nonempty {κ β : Type} [DecidableEq κ] {m : List (κ × List β)} {k : κ}
    {b : β} (hm : ∀ q ∈ m, q.2 ≠ []) : ∀ q ∈ aappend m k b, q.2 ≠ [] := by
  induction m with
  | nil =>
    intro q hq
    simp only [aappend, List.mem_singleton] at hq
    subst hq
    simp
  | cons p r ih =>
    by_cases hp : p.1 = k
    · intro q hq
      simp only [aappend, if_pos hp] at hq
      rcases List.mem_cons.mp hq with rfl | hq1
      · simp
      · exact hm q (List.mem_cons_of_mem p hq1)
    · intro q hq
      simp only [aappend, if_neg hp] at hq
      rcases List.mem_cons.mp hq with rfl | hq1
      · exact hm q (List.mem_cons_self q r)
      · exact ih (fun q' hq' => hm q' (List.mem_cons_of_mem p hq')) q hq1

theorem foldl_aappend_nonempty {κ β : Type} [DecidableEq κ] (b : β) :
    ∀ (names : List κ) (m : List (κ × List β)),
    (∀ q ∈ m, q.2 ≠ []) →
    ∀ q ∈ names.foldl (fun d nm => aappend d nm b) m, q.2 ≠ [] := by
  intro names
  induction names with
  | nil => intro m hm q hq; exact hm q hq
  | cons nm rest ih =>
    intro m hm
    simp only [List.foldl_cons]
    exact ih (aappend m nm b) (aappend_nonempty hm)

theorem depFold_nonempty : ∀ (l : List Job) (i : Nat) (dep : List (JVal × List Nat)),
    (∀ q ∈ dep, q.2 ≠ []) → ∀ q ∈ depFold i l dep, q.2 ≠ [] := by
  intro l
  induction l with
  | nil => intro i dep hdep q hq; exact hdep q hq
  | cons j rest ih =>
    intro i dep hdep
    simp only [depFold]
    exact ih (i + 1) _ (foldl_aappend_nonempty i j.pre_works dep hdep)

theorem feed_ok_dependency {ts ts' : Testsuite} {i : Nat} {name info : JVal}
    (h : ts.feed_dep_model_info i name info = .ok ts') :
    ts'.dependency = ts.dependency := by
  cases hj : ts.jobs[i]? with
  | none => simp [Testsuite.feed_dep_model_info, hj] at h
  | some job =>
    cases hsp : job.set_pre_work name info with
    | error e => simp [Testsuite.feed_dep_model_info, hj, hsp] at h
    | ok job1 =>
      simp only [Testsuite.feed_dep_model_info, hj, hsp] at h
      obtain rfl := by simpa using h
      rfl

theorem drop_ok_dependency {ts ts' : Testsuite} {name : JVal}
    (h : ts.remove_dependency name = .ok ts') :
    ts'.dependency = adel ts.dependency name := by
  cases hmd : ts.model_in_dep name with
  | false => simp [Testsuite.remove_dependency, hmd] at h
  | true =>
    simp only [Testsuite.remove_dependency, hmd, if_true] at h
    obtain rfl := by simpa using h
    rfl

theorem next_ready_dependency {ts ts' : Testsuite} {i : Nat}
    (h : ts.next_ready = some (i, ts')) :
    ts'.dependency = ts.dependency := by
  cases hrev : ts.ready_jobs.reverse with
  | nil => simp [Testsuite.next_ready, hrev] at h
  | cons a rest =>
    simp only [Testsuite.next_ready, hrev] at h
    obtain ⟨rfl, rfl⟩ := by simpa using h
    rfl

theorem update_ok_dependency {ts ts' : Testsuite} {jn : String}
    {a b c : Option String}
    (h : ts.update_status jn a b c = .ok ts') :
    ts'.dependency = ts.dependency := by
  cases hget : aget ts.final_status jn with
  | none => simp [Testsuite.update_status, hget] at h
  | some r =>
    simp only [Testsuite.update_status, hget] at h
    obtain rfl := by simpa using h
    rfl

/-- C8: in every state reachable from suite construction by `satisfy`
(`feed_dep_model_info`), `dropDependency` (`remove_dependency`),
`nextReady` (`jobs_iter`) and `update` (`update_status`), every entry of
the dependency index maps to a non-empty job list, and `model_in_dep name`
is true exactly when the index has a non-empty entry for `name`. -/
theorem C8_dependency_index_invariant (ts : Testsuite) (h : Reachable ts) :
    (∀ q ∈ ts.dependency, q.2 ≠ []) ∧
    (∀ name, ts.model_in_dep name = true ↔
      ∃ q ∈ ts.dependency, q.1 = name ∧ q.2 ≠ []) := by
  have hinv : ∀ q ∈ ts.dependency, q.2 ≠ [] := by
    induction h with
    | init dataset jobs pipeline_jobs =>
      intro q hq
      exact depFold_nonempty jobs 0 [] (by simp) q hq
    | feed ts0 ts' i name info _ hok ih =>
      intro q hq
      rw [feed_ok_dependency hok] at hq
      exact ih q hq
    | drop ts0 ts' name _ hok ih =>
      intro q hq
      rw [drop_ok_dependency hok] at hq
      exact ih q (mem_adel hq)
    | next ts0 ts' i _ hok ih =>
      intro q hq
      rw [next_ready_dependency hok] at hq
      exact ih q hq
    | upd ts0 ts' jn a b c _ hok ih =>
      intro q hq
      rw [update_ok_dependency hok] at hq
      exact ih q hq
  refine ⟨hinv, fun name => ?_⟩
  constructor
  · intro hmd
    rcases List.any_eq_true.mp hmd with ⟨q, hq, hq2⟩
    exact ⟨q, hq, by simpa using hq2, hinv q hq⟩
  · rintro ⟨q, hq, hq1, _⟩
    exact List.any_eq_true.mpr ⟨q, hq, by simpa using hq1⟩

/-- Closed witness for C8 at a freshly built suite with one dependency. -/
theorem C8_witness : exTsC.model_in_dep (JVal.s "a") = true := by
  have h := (C8_dependency_index_invariant exTsC
    (Reachable.init [] [exJobC] [])).2 (JVal.s "a")
  exact h.mpr ⟨(JVal.s "a", [0]), by decide, rfl, by decide⟩

/-! ### C4: `get_final_status` appends outstanding names, non-idempotently -/

theorem appendRest_ok {fs : List (String × FinalStatus)} {jn : String} {name : JVal}
    {r : FinalStatus} (hr : aget fs jn = some r) :
    appendRest fs jn name =
      .ok (aset fs jn { r with rest_dependency := r.rest_dependency ++ [name] }) := by
  simp [appendRest, hr]

theorem restFoldIdx_spec (jobs : List Job) (name : JVal) :
    ∀ (idxs : List Nat) (fs : List (String × FinalStatus)),
    (∀ i ∈ idxs, ∃ j, jobs[i]? = some j ∧ (aget fs j.job_name).isSome) →
    ∃ fs1, restFoldIdx jobs name idxs fs = .ok fs1 ∧
      ∀ k, aget fs1 k = (aget fs k).map (fun r =>
        { r with rest_dependency := r.rest_dependency ++ idxNames jobs name k idxs }) := by
  intro idxs
  induction idxs with
  | nil =>
    intro fs _
    refine ⟨fs, rfl, fun k => ?_⟩
    cases hk : aget fs k <;> simp [idxNames]
  | cons i rest ih =>
    intro fs hWF
    obtain ⟨j, hj, hsome⟩ := hWF i (List.mem_cons_self i rest)
    obtain ⟨r, hr⟩ := Option.isSome_iff_exists.mp hsome
    have hstep : ∀ k,
        aget (aset fs j.job_name { r with rest_dependency := r.rest_dependency ++ [name] }) k
          = (aget fs k).map (fun r0 =>
              if j.job_name = k then
                { r0 with rest_dependency := r0.rest_dependency ++ [name] }
              else r0) := by
      intro k
      rw [aget_aset]
      by_cases hk : j.job_name = k
      · subst hk
        rw [hr]
        simp
      · rw [if_neg hk]
        cases hk0 : aget fs k <;> simp [hk]
    have hrest : ∀ i' ∈ rest, ∃ j', jobs[i']? = some j' ∧
        (aget (aset fs j.job_name
          { r with rest_dependency := r.rest_dependency ++ [name] }) j'.job_name).isSome := by
      intro i' hi'
      obtain ⟨j', hj', hsome'⟩ := hWF i' (List.mem_cons_of_mem i hi')
      obtain ⟨r', hr'⟩ := Option.isSome_iff_exists.mp hsome'
      refine ⟨j', hj', ?_⟩
      rw [hstep j'.job_name, hr']
      simp
    obtain ⟨fs1, hfold, hchar⟩ :=
      ih (aset fs j.job_name { r with rest_dependency := r.rest_dependency ++ [name] }) hrest
    refine ⟨fs1, ?_, fun k => ?_⟩
    · simp only [restFoldIdx, hj, appendRest_ok hr]
      exact hfold
    · rw [hchar k, hstep k, Option.map_map]
      cases hk0 : aget fs k with
      | none => simp
      | some r0 =>
        by_cases hk : j.job_name = k
        · simp [Function.comp, hk, idxNames, List.filterMap_cons, hj, List.append_assoc]
        · simp [Function.comp, hk, idxNames, List.filterMap_cons, hj]

theorem restFoldDep_spec (jobs : List Job) :
    ∀ (dep : List (JVal × List Nat)) (fs : List (String × FinalStatus)),
    (∀ p ∈ dep, ∀ i ∈ p.2, ∃ j, jobs[i]? = some j ∧ (aget fs j.job_name).isSome) →
    ∃ fs1, restFoldDep jobs dep fs = .ok fs1 ∧
      ∀ k, aget fs1 k = (aget fs k).map (fun r =>
        { r with rest_dependency := r.rest_dependency ++ depNames jobs dep k }) := by
  intro dep
  induction dep with
  | nil =>
    intro fs _
    refine ⟨fs, rfl, fun k => ?_⟩
    cases hk : aget fs k <;> simp [depNames]
  | cons p rest ih =>
    intro fs hWF
    obtain ⟨fsA, hfoldA, hcharA⟩ :=
      restFoldIdx_spec jobs p.1 p.2 fs (hWF p (List.mem_cons_self p rest))
    have hrest : ∀ p' ∈ rest, ∀ i ∈ p'.2, ∃ j', jobs[i]? = some j' ∧
        (aget fsA j'.job_name).isSome := by
      intro p' hp' i hi
      obtain ⟨j', hj', hsome'⟩ := hWF p' (List.mem_cons_of_mem p hp') i hi
      obtain ⟨r', hr'⟩ := Option.isSome_iff_exists.mp hsome'
      refine ⟨j', hj', ?_⟩
      rw [hcharA j'.job_name, hr']
      simp
    obtain ⟨fs1, hfold1, hchar1⟩ := ih fsA hrest
    refine ⟨fs1, ?_, fun k => ?_⟩
    · simp only [restFoldDep, hfoldA]
      exact hfold1
    · rw [hchar1 k, hcharA k, Option.map_map]
      cases hk0 : aget fs k with
      | none => simp
      | some r0 => simp [Function.comp, depNames, List.append_assoc]

/-- C4: `get_final_status` appends, for every dependency name still in the
index and every job in its waiting list, that name to the job's
rest-dependency list, and returns the full mapping; the index itself is
untouched, so a second call on the returned state appends every outstanding
name a second time — the operation is not idempotent. -/
theorem C4_get_final_status_not_idempotent (ts : Testsuite) (hwf : ts.statusWF = true) :
    ∃ ts1 ts2,
      ts.get_final_status = .ok ts1 ∧
      ts1.dependency = ts.dependency ∧
      ts1.jobs = ts.jobs ∧
      ts1.ready_jobs = ts.ready_jobs ∧
      ts1.dataset = ts.dataset ∧
      (∀ k, aget ts1.final_status k = (aget ts.final_status k).map (fun r =>
        { r with rest_dependency := r.rest_dependency ++ ts.outstanding k })) ∧
      ts1.get_final_status = .ok ts2 ∧
      (∀ k, aget ts2.final_status k = (aget ts.final_status k).map (fun r =>
        { r with rest_dependency :=
                   (r.rest_dependency ++ ts.outstanding k) ++ ts.outstanding k })) := by
  have hwf1 : ∀ p ∈ ts.dependency, ∀ i ∈ p.2,
      ∃ j, ts.jobs[i]? = some j ∧ (aget ts.final_status j.job_name).isSome := by
    intro p hp i hi
    have h1 := List.all_eq_true.mp hwf p hp
    have h2 := List.all_eq_true.mp h1 i hi
    cases hj : ts.jobs[i]? with
    | none => rw [hj] at h2; exact absurd h2 (by simp)
    | some j =>
      rw [hj] at h2
      exact ⟨j, rfl, h2⟩
  obtain ⟨fs1, hfold1, hchar1⟩ :=
    restFoldDep_spec ts.jobs ts.dependency ts.final_status hwf1
  have hwf2 : ∀ p ∈ ts.dependency, ∀ i ∈ p.2,
      ∃ j, ts.jobs[i]? = some j ∧ (aget fs1 j.job_name).isSome := by
    intro p hp i hi
    obtain ⟨j, hj, hsome⟩ := hwf1 p hp i hi
    obtain ⟨r, hr⟩ := Option.isSome_iff_exists.mp hsome
    refine ⟨j, hj, ?_⟩
    rw [hchar1 j.job_name, hr]
    simp
  obtain ⟨fs2, hfold2, hchar2⟩ := restFoldDep_spec ts.jobs ts.dependency fs1 hwf2
  refine ⟨{ ts with final_status := fs1 }, { ts with final_status := fs2 },
    ?_, rfl, rfl, rfl, rfl, hchar1, ?_, ?_⟩
  · simp [Testsuite.get_final_status, hfold1]
  · show Testsuite.get_final_status { ts with final_status := fs1 } = _
    simp [Testsuite.get_final_status, hfold2]
  · intro k
    rw [hchar2 k, hchar1 k, Option.map_map]
    cases hk0 : aget ts.final_status k with
    | none => simp
    | some r0 => simp [Function.comp, Testsuite.outstanding]

/-- Closed witness for C4: on the one-dependency suite, the first report
appends `"a"` once to job `"c"`'s rest-dependency list and a second call
appends it again. -/
theorem C4_witness :
    exTsC.statusWF = true ∧
    ∃ ts1 ts2, exTsC.get_final_status = .ok ts1 ∧ ts1.get_final_status = .ok ts2 ∧
      aget ts1.final_status "c" = some
        { name := "c", job_id := "-", status := "not submitted", exception_id := "-",
          rest_dependency := [JVal.s "a"] } ∧
      aget ts2.final_status "c" = some
        { name := "c", job_id := "-", status := "not submitted", exception_id := "-",
          rest_dependency := [JVal.s "a", JVal.s "a"] } := by
  refine ⟨rfl, ?_⟩
  obtain ⟨ts1, ts2, h1, _, _, _, _, hc1, h2, hc2⟩ :=
    C4_get_final_status_not_idempotent exTsC rfl
  refine ⟨ts1, ts2, h1, h2, ?_, ?_⟩
  · rw [hc1 "c"]
    rfl
  · rw [hc2 "c"]
    rfl

end FateParser
